import Mathlib

/-!
Verification of the PID controller for Lie groups from
`smooth_feedback` (`include/smooth/feedback/pid.hpp`).

The controller is shallowly embedded: tangent vectors (`G::Tangent`,
an Eigen fixed-size vector of doubles) are modelled as `Fin n → ℚ`,
time instants (a `std::chrono` duration converted to floating seconds)
as `ℚ`, and the abstract Lie group `G` as a type together with the
operations the controller requires (group subtraction producing a
tangent vector, and the identity element).  The stateful C++ class is
modelled by explicit state passing: `PID.call` returns the command
together with the updated controller state.
-/

namespace SmoothFeedback

/-- `G::Tangent`: a fixed-dimension coefficient vector. -/
abbrev Tangent (n : ℕ) := Fin n → ℚ

/-- Eigen `cwiseProduct`: componentwise multiplication. -/
def cwiseProduct {n : ℕ} (a b : Tangent n) : Tangent n := fun i => a i * b i

/-- Eigen `cwiseMax` with a scalar: componentwise maximum. -/
def cwiseMax {n : ℕ} (a : Tangent n) (c : ℚ) : Tangent n := fun i => max (a i) c

/-- Eigen `cwiseMin` with a scalar: componentwise minimum. -/
def cwiseMin {n : ℕ} (a : Tangent n) (c : ℚ) : Tangent n := fun i => min (a i) c

/-- `PIDParams` from `pid.hpp`: the single anti-windup parameter. -/
structure PIDParams where
  windup_limit : ℚ

/-- The operations the controller requires of the `LieGroup` concept `G`:
group subtraction `G - G → Tangent` and the identity element. -/
structure LieGroupOps (G : Type) (n : ℕ) where
  gsub : G → G → Tangent n
  identity : G

/-- The state of a `PID<T, G>` object: parameters, the three gain
vectors, the optional last timestamp, the integral state, and the
stored desired-trajectory function
`x_des_ : T → (G, G::Tangent, G::Tangent)`. -/
structure PID (G : Type) (n : ℕ) where
  prm_ : PIDParams
  kd_ : Tangent n
  kp_ : Tangent n
  ki_ : Tangent n
  t_last : Option ℚ
  i_err_ : Tangent n
  x_des_ : ℚ → G × Tangent n × Tangent n

/-- The constructor `PID(const PIDParams & prm)` together with the
member initializers: `kd_ = kp_ = Ones`, `ki_ = i_err_ = Zero`,
`t_last` empty, and the default trajectory constantly
`(G::Identity(), Zero, Zero)`. -/
def PID.create {G : Type} {n : ℕ} (ops : LieGroupOps G n) (prm : PIDParams) : PID G n where
  prm_ := prm
  kd_ := fun _ => 1
  kp_ := fun _ => 1
  ki_ := fun _ => 0
  t_last := none
  i_err_ := fun _ => 0
  x_des_ := fun _ => (ops.identity, fun _ => 0, fun _ => 0)

/-- `set_kp(double)`: broadcast a scalar to all proportional gains. -/
def PID.set_kp_scalar {G : Type} {n : ℕ} (s : PID G n) (kp : ℚ) : PID G n :=
  { s with kp_ := fun _ => kp }

/-- `set_kp(vector)`: assign the proportional gain vector. -/
def PID.set_kp {G : Type} {n : ℕ} (s : PID G n) (kp : Tangent n) : PID G n :=
  { s with kp_ := kp }

/-- `set_kd(double)`: broadcast a scalar to all derivative gains. -/
def PID.set_kd_scalar {G : Type} {n : ℕ} (s : PID G n) (kd : ℚ) : PID G n :=
  { s with kd_ := fun _ => kd }

/-- `set_kd(vector)`: assign the derivative gain vector. -/
def PID.set_kd {G : Type} {n : ℕ} (s : PID G n) (kd : Tangent n) : PID G n :=
  { s with kd_ := kd }

/-- `set_ki(double)`: broadcast a scalar to all integral gains. -/
def PID.set_ki_scalar {G : Type} {n : ℕ} (s : PID G n) (ki : ℚ) : PID G n :=
  { s with ki_ := fun _ => ki }

/-- `set_ki(vector)`: assign the integral gain vector. -/
def PID.set_ki {G : Type} {n : ℕ} (s : PID G n) (ki : Tangent n) : PID G n :=
  { s with ki_ := ki }

/-- `reset_integral()`: `i_err_.setZero()`. -/
def PID.reset_integral {G : Type} {n : ℕ} (s : PID G n) : PID G n :=
  { s with i_err_ := fun _ => 0 }

/-- `set_xdes(std::function<TrajectoryReturnT(T)>)`: store the
trajectory function. -/
def PID.set_xdes {G : Type} {n : ℕ} (s : PID G n)
    (f : ℚ → G × Tangent n × Tangent n) : PID G n :=
  { s with x_des_ := f }

/-- `operator()(t, g, v)` from `pid.hpp` lines 175-191: evaluate the
trajectory, form the Lie-group position error `g_err = g_des - g`,
conditionally accumulate and clamp the integral state, unconditionally
record `t_last = t`, and return the command.  The result is the pair
(returned tangent vector, updated object state). -/
def PID.call {G : Type} {n : ℕ} (ops : LieGroupOps G n) (s : PID G n)
    (t : ℚ) (g : G) (v : Tangent n) : Tangent n × PID G n :=
  let gva := s.x_des_ t
  let g_des := gva.1
  let v_des := gva.2.1
  let a_des := gva.2.2
  let g_err : Tangent n := ops.gsub g_des g
  let i_err' : Tangent n :=
    match s.t_last with
    | some tl =>
      if tl < t then
        let dt : ℚ := t - tl
        cwiseMin (cwiseMax (fun i => s.i_err_ i + dt * g_err i)
          (-s.prm_.windup_limit)) s.prm_.windup_limit
      else s.i_err_
    | none => s.i_err_
  (fun i => a_des i + s.kp_ i * g_err i + s.kd_ i * (v_des i - v i) + s.ki_ i * i_err' i,
   { s with i_err_ := i_err', t_last := some t })

/-- A concrete Lie group used for witnesses: `ℚ` as a one-dimensional
translation group, with group subtraction the ordinary one. -/
def opsQ : LieGroupOps ℚ 1 where
  gsub := fun a b => fun _ => a - b
  identity := 0

/-- A concrete constant trajectory for witnesses: desired position `1`,
zero desired velocity and acceleration. -/
def trajOne : ℚ → ℚ × Tangent 1 × Tangent 1 := fun _ => (1, fun _ => 0, fun _ => 0)

/-- A concrete controller state whose `t_last` is `some 0`: the fresh
controller with windup limit `5` and trajectory `trajOne`, after one
evaluation at time `0` with state `0` and zero velocity. -/
def sAfterOne : PID ℚ 1 :=
  (PID.call opsQ ((PID.create opsQ ⟨5⟩).set_xdes trajOne) 0 0 (fun _ => 0)).2

/-- A concrete controller with all gains set to the zero vector. -/
def zeroGainPID : PID ℚ 1 :=
  (((PID.create opsQ ⟨5⟩).set_kp (fun _ => 0)).set_kd (fun _ => 0)).set_ki (fun _ => 0)

/-- A concrete controller with negative windup limit `-1` whose
`t_last` is `some 0`. -/
def negWindupPID : PID ℚ 1 :=
  (PID.call opsQ ((PID.create opsQ ⟨-1⟩).set_xdes trajOne) 0 0 (fun _ => 0)).2

/-- The externally callable state-changing operations of the `PID`
class: evaluation, the six gain setters, integral reset, and trajectory
configuration. -/
inductive PIDOp (G : Type) (n : ℕ) where
  | call (t : ℚ) (g : G) (v : Tangent n)
  | set_kp_scalar (k : ℚ)
  | set_kp (k : Tangent n)
  | set_kd_scalar (k : ℚ)
  | set_kd (k : Tangent n)
  | set_ki_scalar (k : ℚ)
  | set_ki (k : Tangent n)
  | reset_integral
  | set_xdes (f : ℚ → G × Tangent n × Tangent n)

/-- Apply one operation to a controller state. -/
def PID.applyOp {G : Type} {n : ℕ} (ops : LieGroupOps G n) (s : PID G n) :
    PIDOp G n → PID G n
  | .call t g v => (PID.call ops s t g v).2
  | .set_kp_scalar k => s.set_kp_scalar k
  | .set_kp k => s.set_kp k
  | .set_kd_scalar k => s.set_kd_scalar k
  | .set_kd k => s.set_kd k
  | .set_ki_scalar k => s.set_ki_scalar k
  | .set_ki k => s.set_ki k
  | .reset_integral => s.reset_integral
  | .set_xdes f => s.set_xdes f

/-- Apply a sequence of operations, left to right. -/
def PID.applyOps {G : Type} {n : ℕ} (ops : LieGroupOps G n) (s : PID G n)
    (l : List (PIDOp G n)) : PID G n :=
  l.foldl (PID.applyOp ops) s

/-- `n` successive evaluation calls at the equally spaced times
`t0, t0 + dt, …, t0 + (n-1)·dt`, with the `k`-th call supplying the
current state `g k` and body velocity `v k`. -/
def PID.callN {G : Type} {m : ℕ} (ops : LieGroupOps G m) (s : PID G m) (t0 dt : ℚ)
    (g : ℕ → G) (v : ℕ → Tangent m) : ℕ → PID G m
  | 0 => s
  | k + 1 => (PID.call ops (PID.callN ops s t0 dt g v k) (t0 + k * dt) (g k) (v k)).2

/-- The anti-windup invariant: the windup limit is nonnegative and
every component of the integral state is within it in magnitude. -/
def WindupInv {G : Type} {n : ℕ} (s : PID G n) : Prop :=
  0 ≤ s.prm_.windup_limit ∧ ∀ i, |s.i_err_ i| ≤ s.prm_.windup_limit

lemma windupInv_call {G : Type} {n : ℕ} (ops : LieGroupOps G n) (s : PID G n)
    (t : ℚ) (g : G) (v : Tangent n) (h : WindupInv s) :
    WindupInv (PID.call ops s t g v).2 := by
  obtain ⟨hw, hb⟩ := h
  refine ⟨hw, fun i => ?_⟩
  rcases hlast : s.t_last with _ | tl
  · simpa only [PID.call, hlast] using hb i
  · by_cases hlt : tl < t
    · simp only [PID.call, hlast, if_pos hlt, cwiseMin, cwiseMax]
      exact abs_le.mpr ⟨le_min (le_max_right _ _) (neg_le_self hw), min_le_right _ _⟩
    · simpa only [PID.call, hlast, if_neg hlt] using hb i

lemma windupInv_applyOp {G : Type} {n : ℕ} (ops : LieGroupOps G n) (s : PID G n)
    (op : PIDOp G n) (h : WindupInv s) : WindupInv (PID.applyOp ops s op) := by
  cases op with
  | call t g v => exact windupInv_call ops s t g v h
  | reset_integral => exact ⟨h.1, fun i => by simpa using h.1⟩
  | set_kp_scalar k => exact h
  | set_kp k => exact h
  | set_kd_scalar k => exact h
  | set_kd k => exact h
  | set_ki_scalar k => exact h
  | set_ki k => exact h
  | set_xdes f => exact h

lemma windupInv_applyOps {G : Type} {n : ℕ} (ops : LieGroupOps G n) (s : PID G n)
    (l : List (PIDOp G n)) (h : WindupInv s) : WindupInv (PID.applyOps ops s l) := by
  induction l generalizing s with
  | nil => exact h
  | cons op rest ih => exact ih _ (windupInv_applyOp ops s op h)

lemma applyOp_prm {G : Type} {n : ℕ} (ops : LieGroupOps G n) (s : PID G n)
    (op : PIDOp G n) : (PID.applyOp ops s op).prm_ = s.prm_ := by
  cases op <;> rfl

lemma applyOps_prm {G : Type} {n : ℕ} (ops : LieGroupOps G n) (s : PID G n)
    (l : List (PIDOp G n)) : (PID.applyOps ops s l).prm_ = s.prm_ := by
  induction l generalizing s with
  | nil => rfl
  | cons op rest ih =>
    rw [show PID.applyOps ops s (op :: rest)
        = PID.applyOps ops (PID.applyOp ops s op) rest from rfl, ih, applyOp_prm]

lemma callN_prm {G : Type} {m : ℕ} (ops : LieGroupOps G m) (s : PID G m) (t0 dt : ℚ)
    (g : ℕ → G) (v : ℕ → Tangent m) :
    ∀ k, (PID.callN ops s t0 dt g v k).prm_ = s.prm_
  | 0 => rfl
  | k + 1 => callN_prm ops s t0 dt g v k

lemma callN_x_des {G : Type} {m : ℕ} (ops : LieGroupOps G m) (s : PID G m) (t0 dt : ℚ)
    (g : ℕ → G) (v : ℕ → Tangent m) :
    ∀ k, (PID.callN ops s t0 dt g v k).x_des_ = s.x_des_
  | 0 => rfl
  | k + 1 => callN_x_des ops s t0 dt g v k

lemma clamp_of_abs_le {x w : ℚ} (h : |x| ≤ w) : min (max x (-w)) w = x := by
  rcases abs_le.mp h with ⟨h1, h2⟩
  rw [max_eq_left h1, min_eq_left h2]

lemma callN_linear_aux {G : Type} {m : ℕ} (ops : LieGroupOps G m) (s : PID G m)
    (t0 dt : ℚ) (e : Tangent m) (g : ℕ → G) (v : ℕ → Tangent m) (N : ℕ)
    (hs_t : s.t_last = none) (hs_i : s.i_err_ = fun _ => 0)
    (hdt : 0 < dt)
    (hg : ∀ k, k < N → ops.gsub ((s.x_des_ (t0 + k * dt)).1) (g k) = e)
    (hbound : ∀ k, k < N → ∀ i, |(k : ℚ) * dt * e i| ≤ s.prm_.windup_limit) :
    ∀ k, 1 ≤ k → k ≤ N →
      (PID.callN ops s t0 dt g v k).t_last = some (t0 + ((k - 1 : ℕ) : ℚ) * dt)
      ∧ (PID.callN ops s t0 dt g v k).i_err_ = fun i => ((k - 1 : ℕ) : ℚ) * dt * e i := by
  intro k
  induction k with
  | zero => omega
  | succ k ih =>
    intro _ hkN
    by_cases hk : 1 ≤ k
    · -- inductive step: the (k+1)-th call accumulates over one interval dt
      obtain ⟨iht, ihi⟩ := ih hk (by omega)
      have hprm := callN_prm ops s t0 dt g v k
      have hx := callN_x_des ops s t0 dt g v k
      have hcast : ((k - 1 : ℕ) : ℚ) = (k : ℚ) - 1 := by
        rw [Nat.cast_sub hk, Nat.cast_one]
      have hklt : ((k - 1 : ℕ) : ℚ) < (k : ℚ) := by
        rw [hcast]; linarith
      have htl : (t0 + ((k - 1 : ℕ) : ℚ) * dt) < t0 + (k : ℚ) * dt := by
        have := mul_lt_mul_of_pos_right hklt hdt
        linarith
      constructor
      · show some (t0 + (k : ℚ) * dt) = _
        norm_num
      · funext i
        show (PID.call ops (PID.callN ops s t0 dt g v k)
            (t0 + (k : ℚ) * dt) (g k) (v k)).2.i_err_ i = _
        simp only [PID.call, iht, if_pos htl, cwiseMin, cwiseMax, ihi, hx, hprm,
          hg k (by omega)]
        have harith : ((k - 1 : ℕ) : ℚ) * dt * e i
            + (t0 + (k : ℚ) * dt - (t0 + ((k - 1 : ℕ) : ℚ) * dt)) * e i
            = (k : ℚ) * dt * e i := by
          rw [hcast]; ring
        rw [harith, clamp_of_abs_le (hbound k (by omega) i)]
        norm_num
    · -- base case k = 0: the first call records t_last and does not accumulate
      have hk0 : k = 0 := by omega
      subst hk0
      constructor
      · show some (t0 + ((0 : ℕ) : ℚ) * dt) = _
        norm_num
      · funext i
        show (PID.call ops (PID.callN ops s t0 dt g v 0)
            (t0 + ((0 : ℕ) : ℚ) * dt) (g 0) (v 0)).2.i_err_ i = _
        simp only [PID.call, PID.callN, hs_t, hs_i]
        norm_num

/-- C1: the command returned by `operator()(t, g, v)` is
`a_des + kp ⊙ g_err + kd ⊙ (v_des - v) + ki ⊙ i_err`, where
`(g_des, v_des, a_des)` is the stored trajectory at `t`,
`g_err = g_des - g` is the Lie-group difference, `⊙` is componentwise
multiplication, `v_des - v` is flat tangent subtraction, and `i_err` is
the integral state of the post-call controller (after this call's
possible accumulation step). -/
theorem pid_call_command {G : Type} {n : ℕ} (ops : LieGroupOps G n) (s : PID G n)
    (t : ℚ) (g : G) (v : Tangent n) :
    (PID.call ops s t g v).1 = fun i =>
      (s.x_des_ t).2.2 i
        + s.kp_ i * ops.gsub (s.x_des_ t).1 g i
        + s.kd_ i * ((s.x_des_ t).2.1 i - v i)
        + s.ki_ i * (PID.call ops s t g v).2.i_err_ i := rfl

/-- C2: the integral state after `operator()(t, g, v)` is: when a last
timestamp `tl` exists and `tl < t`, the old state plus `dt * g_err`
(with `dt = t - tl`) clamped componentwise into
`[-windup_limit, windup_limit]`; when `t_last` is absent, or `t ≤ tl`,
the integral state is completely unchanged. -/
theorem pid_integral_update_cases {G : Type} {n : ℕ} (ops : LieGroupOps G n) (s : PID G n)
    (t : ℚ) (g : G) (v : Tangent n) :
    (∀ tl, s.t_last = some tl → tl < t →
      (PID.call ops s t g v).2.i_err_ = fun i =>
        min (max (s.i_err_ i + (t - tl) * ops.gsub (s.x_des_ t).1 g i)
          (-s.prm_.windup_limit)) s.prm_.windup_limit)
    ∧ (s.t_last = none → (PID.call ops s t g v).2.i_err_ = s.i_err_)
    ∧ (∀ tl, s.t_last = some tl → t ≤ tl →
        (PID.call ops s t g v).2.i_err_ = s.i_err_) := by
  refine ⟨?_, ?_, ?_⟩
  · intro tl h hlt
    funext i
    simp only [PID.call, h, if_pos hlt, cwiseMin, cwiseMax]
  · intro h
    simp only [PID.call, h]
  · intro tl h hle
    simp only [PID.call, h, if_neg (not_lt.mpr hle)]

/-- Witness for C2 at a concrete input: the controller `sAfterOne`
(whose `t_last` is `some 0`) evaluated at time `1` accumulates and
clamps its integral state. -/
theorem pid_integral_update_cases_witness :
    (PID.call opsQ sAfterOne 1 0 (fun _ => 0)).2.i_err_ = fun i =>
      min (max (sAfterOne.i_err_ i + (1 - 0) * opsQ.gsub ((sAfterOne.x_des_ 1).1) 0 i)
        (-sAfterOne.prm_.windup_limit)) sAfterOne.prm_.windup_limit :=
  (pid_integral_update_cases opsQ sAfterOne 1 0 (fun _ => 0)).1 0 rfl (by norm_num)

/-- C4: every evaluation call records `t_last = t` unconditionally; in
particular, calling at time `t` and then at an earlier time `t0 < t`
leaves the integral state untouched on the second call while `t_last`
still becomes `t0`. -/
theorem pid_t_last_unconditional {G : Type} {n : ℕ} (ops : LieGroupOps G n) (s : PID G n)
    (t : ℚ) (g : G) (v : Tangent n) (t0 : ℚ) (g' : G) (v' : Tangent n) :
    (PID.call ops s t g v).2.t_last = some t
    ∧ (t0 < t →
        (PID.call ops (PID.call ops s t g v).2 t0 g' v').2.i_err_
          = (PID.call ops s t g v).2.i_err_
        ∧ (PID.call ops (PID.call ops s t g v).2 t0 g' v').2.t_last = some t0) := by
  refine ⟨rfl, fun h => ⟨?_, rfl⟩⟩
  simp only [PID.call, if_neg (not_lt.mpr h.le)]

/-- Witness for C4 at a concrete input: a call at time `1` followed by
a call at the earlier time `0`. -/
theorem pid_t_last_unconditional_witness :
    (PID.call opsQ (PID.create opsQ ⟨5⟩) 1 0 (fun _ => 0)).2.t_last = some 1
    ∧ ((PID.call opsQ (PID.call opsQ (PID.create opsQ ⟨5⟩) 1 0 (fun _ => 0)).2
          0 0 (fun _ => 0)).2.i_err_
        = (PID.call opsQ (PID.create opsQ ⟨5⟩) 1 0 (fun _ => 0)).2.i_err_
      ∧ (PID.call opsQ (PID.call opsQ (PID.create opsQ ⟨5⟩) 1 0 (fun _ => 0)).2
          0 0 (fun _ => 0)).2.t_last = some 0) :=
  ⟨(pid_t_last_unconditional opsQ (PID.create opsQ ⟨5⟩) 1 0 (fun _ => 0) 0 0 (fun _ => 0)).1,
   (pid_t_last_unconditional opsQ (PID.create opsQ ⟨5⟩) 1 0 (fun _ => 0) 0 0
     (fun _ => 0)).2 (by norm_num)⟩

/-- C6: on a freshly constructed controller `t_last` is absent, and the
first evaluation call, at any time, performs no integral accumulation
(`i_err` stays zero) while recording `t_last = t`. -/
theorem pid_first_call {G : Type} {n : ℕ} (ops : LieGroupOps G n) (prm : PIDParams)
    (t : ℚ) (g : G) (v : Tangent n) :
    (PID.create ops prm).t_last = none
    ∧ (PID.call ops (PID.create ops prm) t g v).2.i_err_ = (fun _ => 0)
    ∧ (PID.call ops (PID.create ops prm) t g v).2.t_last = some t :=
  ⟨rfl, rfl, rfl⟩

/-- C7: `reset_integral()` zeroes the integral state and changes
nothing else (`t_last`, the gains, the parameters, and the trajectory
are untouched); a subsequent evaluation with recorded last timestamp
`tl` and a strictly later time `t` still integrates normally over the
elapsed interval, starting from the zeroed integral state. -/
theorem pid_reset_integral_effects {G : Type} {n : ℕ} (ops : LieGroupOps G n) (s : PID G n)
    (t : ℚ) (g : G) (v : Tangent n) :
    s.reset_integral.i_err_ = (fun _ => 0)
    ∧ s.reset_integral.t_last = s.t_last
    ∧ s.reset_integral.kp_ = s.kp_
    ∧ s.reset_integral.kd_ = s.kd_
    ∧ s.reset_integral.ki_ = s.ki_
    ∧ s.reset_integral.prm_ = s.prm_
    ∧ s.reset_integral.x_des_ = s.x_des_
    ∧ (∀ tl, s.t_last = some tl → tl < t →
        (PID.call ops s.reset_integral t g v).2.i_err_ = fun i =>
          min (max ((t - tl) * ops.gsub (s.x_des_ t).1 g i)
            (-s.prm_.windup_limit)) s.prm_.windup_limit) := by
  refine ⟨rfl, rfl, rfl, rfl, rfl, rfl, rfl, fun tl h hlt => ?_⟩
  funext i
  simp only [PID.call, PID.reset_integral, h, if_pos hlt, cwiseMin, cwiseMax, zero_add]

/-- Witness for C7 at a concrete input: resetting `sAfterOne` and then
evaluating at time `1` integrates over the elapsed interval `[0, 1]`. -/
theorem pid_reset_integral_effects_witness :
    (PID.call opsQ sAfterOne.reset_integral 1 0 (fun _ => 0)).2.i_err_ = fun i =>
      min (max ((1 - 0) * opsQ.gsub ((sAfterOne.x_des_ 1).1) 0 i)
        (-sAfterOne.prm_.windup_limit)) sAfterOne.prm_.windup_limit :=
  (pid_reset_integral_effects opsQ sAfterOne 1 0 (fun _ => 0)).2.2.2.2.2.2.2 0 rfl
    (by norm_num)

/-- C8: a controller constructed from parameters `{windup_limit}` has
`kp = kd = ones`, `ki = i_err = zero`, no last timestamp, the given
parameters, and a default trajectory that returns the group identity
with zero velocity and acceleration at every query time. -/
theorem pid_create_defaults {G : Type} {n : ℕ} (ops : LieGroupOps G n) (prm : PIDParams) :
    (PID.create ops prm).kp_ = (fun _ => 1)
    ∧ (PID.create ops prm).kd_ = (fun _ => 1)
    ∧ (PID.create ops prm).ki_ = (fun _ => 0)
    ∧ (PID.create ops prm).i_err_ = (fun _ => 0)
    ∧ (PID.create ops prm).t_last = none
    ∧ (PID.create ops prm).prm_ = prm
    ∧ ∀ t, (PID.create ops prm).x_des_ t = (ops.identity, fun _ => 0, fun _ => 0) :=
  ⟨rfl, rfl, rfl, rfl, rfl, rfl, fun _ => rfl⟩

/-- C9: with all three gain vectors zero, the evaluation returns
exactly the desired acceleration `a_des` reported by the trajectory at
`t`, independent of `g`, `v` and the accumulated errors. -/
theorem pid_feedforward {G : Type} {n : ℕ} (ops : LieGroupOps G n) (s : PID G n)
    (t : ℚ) (g : G) (v : Tangent n)
    (hp : s.kp_ = fun _ => 0) (hd : s.kd_ = fun _ => 0) (hi : s.ki_ = fun _ => 0) :
    (PID.call ops s t g v).1 = (s.x_des_ t).2.2 := by
  funext i
  simp [PID.call, hp, hd, hi]

/-- Witness for C9 at a concrete input. -/
theorem pid_feedforward_witness :
    (PID.call opsQ zeroGainPID 2 3 (fun _ => 4)).1 = (zeroGainPID.x_des_ 2).2.2 :=
  pid_feedforward opsQ zeroGainPID 2 3 (fun _ => 4) rfl rfl rfl

/-- C10: with a negative windup limit, every evaluation call that
performs integral accumulation sets every component of the integral
state to exactly `windup_limit`: the clamp takes the componentwise
`max` with `-windup_limit` first and the `min` with `windup_limit`
second, and when `windup_limit < 0` the `min` always wins. -/
theorem pid_negative_windup {G : Type} {n : ℕ} (ops : LieGroupOps G n) (s : PID G n)
    (t : ℚ) (g : G) (v : Tangent n)
    (hw : s.prm_.windup_limit < 0) (tl : ℚ) (h : s.t_last = some tl) (hlt : tl < t) :
    ∀ i, (PID.call ops s t g v).2.i_err_ i = s.prm_.windup_limit := by
  intro i
  simp only [PID.call, h, if_pos hlt, cwiseMin, cwiseMax]
  exact min_eq_right (le_trans (by linarith) (le_max_right _ _))

/-- Witness for C10 at a concrete input: an accumulating call on a
controller with windup limit `-1` drives the integral state to `-1`. -/
theorem pid_negative_windup_witness :
    (PID.call opsQ negWindupPID 1 0 (fun _ => 0)).2.i_err_ 0 = negWindupPID.prm_.windup_limit :=
  pid_negative_windup opsQ negWindupPID 1 0 (fun _ => 0)
    (by norm_num [negWindupPID, PID.call, PID.create, PID.set_xdes])
    0 rfl (by norm_num) 0

/-- C3, counterexample: with a negative windup limit (`-1`), the
integral state after an accumulating evaluation call has a component
whose magnitude exceeds the windup limit, so the invariant as stated
fails for that construction parameter. -/
theorem pid_windup_invariant_cex :
    ¬ ∀ i, |(PID.applyOps opsQ (PID.create opsQ ⟨-1⟩)
        [PIDOp.set_xdes trajOne, PIDOp.call 0 0 (fun _ => 0),
         PIDOp.call 1 0 (fun _ => 0)]).i_err_ i|
      ≤ (PIDParams.mk (-1)).windup_limit := by
  intro h
  have h0 := h 0
  norm_num [PID.applyOps, PID.applyOp, List.foldl, PID.call, PID.create, PID.set_xdes,
    opsQ, trajOne, cwiseMin, cwiseMax, abs_le] at h0

/-- C3 (amended with a nonnegative windup limit): for every sequence of
operations on a freshly constructed controller — evaluation calls
arbitrarily interleaved with gain setters, trajectory configuration and
integral resets — every component of the integral state stays within
`windup_limit` in magnitude. -/
theorem pid_windup_invariant {G : Type} {n : ℕ} (ops : LieGroupOps G n) (prm : PIDParams)
    (hw : 0 ≤ prm.windup_limit) (l : List (PIDOp G n)) :
    ∀ i, |(PID.applyOps ops (PID.create ops prm) l).i_err_ i| ≤ prm.windup_limit := by
  have h := windupInv_applyOps ops (PID.create ops prm) l
    ⟨hw, fun i => by simpa [PID.create] using hw⟩
  intro i
  have hb := h.2 i
  rwa [applyOps_prm] at hb

/-- Witness for C3 at a concrete input: a three-operation sequence on a
controller with windup limit `5`. -/
theorem pid_windup_invariant_witness :
    |(PID.applyOps opsQ (PID.create opsQ ⟨5⟩)
        [PIDOp.set_xdes trajOne, PIDOp.call 0 0 (fun _ => 0),
         PIDOp.call 1 0 (fun _ => 0)]).i_err_ 0|
      ≤ (PIDParams.mk 5).windup_limit :=
  pid_windup_invariant opsQ ⟨5⟩ (by norm_num)
    [PIDOp.set_xdes trajOne, PIDOp.call 0 0 (fun _ => 0),
     PIDOp.call 1 0 (fun _ => 0)] 0

/-- C5, counterexample: two evaluation calls on a fresh controller at
times `0` and `1` (`dt = 1`) with constant position error `1` leave
`i_err = 1`, not `n · dt · g_err = 2` — the first call records the
timestamp without integrating, so only `n - 1` intervals accumulate. -/
theorem pid_linear_accumulation_cex :
    (PID.callN opsQ ((PID.create opsQ ⟨1000⟩).set_xdes trajOne) 0 1
        (fun _ => 0) (fun _ => 0) 2).i_err_ 0 = 1
    ∧ ¬ ((PID.callN opsQ ((PID.create opsQ ⟨1000⟩).set_xdes trajOne) 0 1
        (fun _ => 0) (fun _ => 0) 2).i_err_ 0 = (2 : ℚ) * 1 * 1) := by
  constructor <;>
    norm_num [PID.callN, PID.call, PID.create, PID.set_xdes, opsQ, trajOne,
      cwiseMin, cwiseMax]

/-- C5 (amended: after `n ≥ 1` calls, `n - 1` intervals have
accumulated): on a fresh controller with trajectory `f`, after `n`
evaluation calls at the equally spaced strictly increasing times
`t0, t0 + dt, …` with constant position error `e` and the clamp never
binding, the integral state equals `(n - 1) · dt · e`. -/
theorem pid_linear_accumulation {G : Type} {m : ℕ} (ops : LieGroupOps G m) (prm : PIDParams)
    (f : ℚ → G × Tangent m × Tangent m) (t0 dt : ℚ) (e : Tangent m)
    (g : ℕ → G) (v : ℕ → Tangent m) (N : ℕ)
    (hdt : 0 < dt) (hN : 1 ≤ N)
    (hg : ∀ k, k < N → ops.gsub ((f (t0 + k * dt)).1) (g k) = e)
    (hbound : ∀ k, k < N → ∀ i, |(k : ℚ) * dt * e i| ≤ prm.windup_limit) :
    (PID.callN ops ((PID.create ops prm).set_xdes f) t0 dt g v N).i_err_
      = fun i => ((N - 1 : ℕ) : ℚ) * dt * e i :=
  (callN_linear_aux ops ((PID.create ops prm).set_xdes f) t0 dt e g v N rfl rfl hdt
    hg hbound N hN le_rfl).2

/-- Witness for C5 at a concrete input: three calls at times `0, 1, 2`
with constant position error `1` leave `i_err = 2 · 1 · 1`. -/
theorem pid_linear_accumulation_witness :
    (PID.callN opsQ ((PID.create opsQ ⟨1000⟩).set_xdes trajOne) 0 1
        (fun _ => 0) (fun _ => 0) 3).i_err_
      = fun i => ((3 - 1 : ℕ) : ℚ) * 1 * (fun _ : Fin 1 => (1 : ℚ)) i :=
  pid_linear_accumulation opsQ ⟨1000⟩ trajOne 0 1 (fun _ => 1) (fun _ => 0) (fun _ => 0) 3
    (by norm_num) (by norm_num)
    (by
      intro k _
      funext i
      norm_num [opsQ, trajOne])
    (by
      intro k hk i
      show |(k : ℚ) * 1 * (1 : ℚ)| ≤ 1000
      have hk3 : (k : ℚ) < 3 := by exact_mod_cast hk
      rw [mul_one, mul_one, abs_of_nonneg (Nat.cast_nonneg k)]
      linarith)

end SmoothFeedback
